import Mathlib

/-!
Verification of the qmark message-passing benchmark (`qmark.py`).

The program is shallowly embedded: Python strings become `List Char`,
Python's fallible operations become `Option`/`Except PyErr`, and each
task body becomes a recursive Lean function over the stream of messages
it consumes.  All definitions are translated from the source file; the
gevent scheduling is captured by the observation that servers are
stateless relays, so one client's interaction with the servers is a
deterministic ping-pong (`clientSession`).
-/

namespace Qmark

/-- The Python exceptions that the relevant code paths can raise. -/
inductive PyErr
  | valueError
  | indexError
  | zeroDivisionError
deriving DecidableEq, Repr

deriving instance DecidableEq for Except

/-- View a Lean string literal as the list of its characters (Python `str`). -/
def chars (s : String) : List Char := s.data

/-- Python `s.split(sep)` for a single-character separator: always returns a
non-empty list of fields; the empty string splits to `[[]]`. -/
def splitC (sep : Char) : List Char → List (List Char)
  | [] => [[]]
  | c :: cs =>
    if c = sep then [] :: splitC sep cs
    else
      match splitC sep cs with
      | [] => [[c]]
      | t :: ts => (c :: t) :: ts

/-- Python `sep.join(fields)` for a single-character separator. -/
def joinL (sep : Char) : List (List Char) → List Char
  | [] => []
  | [x] => x
  | x :: y :: ys => x ++ sep :: joinL sep (y :: ys)

/-- The three-way destructuring `cmd, qidx, params = msg.split(':')`
performed by `qtask` and `ctask`; `none` models the `ValueError` raised
when the split does not give exactly three fields. -/
def split3 (msg : List Char) : Option (List Char × List Char × List Char) :=
  match splitC ':' msg with
  | [a, b, c] => some (a, b, c)
  | _ => none

/-- Decimal digit to character, `0 ↦ '0'` … `9 ↦ '9'` (total; inputs are `< 10`). -/
def digitToChar (d : ℕ) : Char :=
  if d = 0 then '0' else if d = 1 then '1' else if d = 2 then '2'
  else if d = 3 then '3' else if d = 4 then '4' else if d = 5 then '5'
  else if d = 6 then '6' else if d = 7 then '7' else if d = 8 then '8' else '9'

/-- Character to decimal digit; `none` on non-digits. -/
def charToDigit (c : Char) : Option ℕ :=
  if c = '0' then some 0 else if c = '1' then some 1 else if c = '2' then some 2
  else if c = '3' then some 3 else if c = '4' then some 4 else if c = '5' then some 5
  else if c = '6' then some 6 else if c = '7' then some 7 else if c = '8' then some 8
  else if c = '9' then some 9 else none

/-- Whether a character is a decimal digit. -/
def isDig (c : Char) : Bool := (charToDigit c).isSome

/-- Digits of `n`, most significant first; `fuel`-structured recursion so that
the kernel can evaluate it (any `fuel > n` gives the digits of `n`). -/
def pyStrNatAux : ℕ → ℕ → List Char
  | 0, _ => []
  | fuel + 1, n =>
    if n < 10 then [digitToChar n]
    else pyStrNatAux fuel (n / 10) ++ [digitToChar (n % 10)]

/-- Python `str(n)` for a non-negative integer: decimal digits, no sign. -/
def pyStrNat (n : ℕ) : List Char := pyStrNatAux (n + 1) n

/-- Python `str(i)` for an integer: a `-` sign followed by the digits when
negative. -/
def pyStrInt (i : ℤ) : List Char :=
  if i < 0 then '-' :: pyStrNat (-i).toNat else pyStrNat i.toNat

/-- Value of a digit string, most significant digit first. -/
def digitsVal (s : List Char) : ℕ :=
  s.foldl (fun a c => 10 * a + (charToDigit c).getD 0) 0

/-- Parse a non-empty all-digit string to a natural number; `none` otherwise. -/
def parseDigits (s : List Char) : Option ℕ :=
  if s ≠ [] ∧ s.all isDig then some (digitsVal s) else none

/-- Python `int(s)` restricted to the forms the program produces: an optional
single sign followed by decimal digits (`none` models `ValueError`; the
whitespace/underscore forms accepted by `int` are never produced here). -/
def pyInt (s : List Char) : Option ℤ :=
  if s.head? = some '-' then (parseDigits s.tail).map (fun n => -(n : ℤ))
  else if s.head? = some '+' then (parseDigits s.tail).map (fun n => (n : ℤ))
  else (parseDigits s).map (fun n => (n : ℤ))

/-- Python `s.index(c)`: index of the first occurrence, `none` for the
`ValueError` when absent. -/
def pyIndexOf (c : Char) : List Char → Option ℕ
  | [] => none
  | x :: xs => if x = c then some 0 else (pyIndexOf c xs).map (· + 1)

/-- `QMark.build_id` (qmark.py lines 46–49): `name + '(' + str(idx) + ')'`. -/
def build_id (name : List Char) (idx : ℤ) : List Char :=
  name ++ '(' :: pyStrInt idx ++ [')']

/-- `QMark.parse_id` (qmark.py lines 51–56): `name = tid[:tid.index('(')]`,
`idx = tid[len(name)+1:-1]`, returns `(name, int(idx))`; errors model the
`ValueError` from a missing `'('` or a non-integer index. -/
def parse_id (tid : List Char) : Except PyErr (List Char × ℤ) :=
  match pyIndexOf '(' tid with
  | none => .error .valueError
  | some j =>
    let name := tid.take j
    let idxs := (tid.take (tid.length - 1)).drop (name.length + 1)
    match pyInt idxs with
    | none => .error .valueError
    | some v => .ok (name, v)

/-! ### Lemmas about splitting and joining -/

theorem splitC_not_mem {sep : Char} {s : List Char} (h : sep ∉ s) :
    splitC sep s = [s] := by
  induction s with
  | nil => rfl
  | cons c cs ih =>
    simp only [List.mem_cons, not_or] at h
    simp only [splitC, if_neg (Ne.symm h.1)]
    rw [ih h.2]

theorem splitC_append_sep {sep : Char} {a : List Char} (b : List Char)
    (h : sep ∉ a) : splitC sep (a ++ sep :: b) = a :: splitC sep b := by
  induction a with
  | nil => simp [splitC]
  | cons c cs ih =>
    simp only [List.mem_cons, not_or] at h
    simp only [List.cons_append, List.append_eq, splitC, if_neg (Ne.symm h.1)]
    rw [ih h.2]

theorem not_mem_joinL {c sep : Char} {P : List (List Char)}
    (hne : c ≠ sep) (h : ∀ t ∈ P, c ∉ t) : c ∉ joinL sep P := by
  induction P with
  | nil => simp [joinL]
  | cons x xs ih =>
    cases xs with
    | nil => simpa [joinL] using h x (by simp)
    | cons y ys =>
      simp only [joinL, List.mem_append, List.mem_cons, not_or]
      refine ⟨h x (by simp), hne, ?_⟩
      exact ih (fun t ht => h t (by simp [ht]))

theorem splitC_joinL {sep : Char} {P : List (List Char)} (hne : P ≠ [])
    (h : ∀ t ∈ P, sep ∉ t) : splitC sep (joinL sep P) = P := by
  induction P with
  | nil => exact absurd rfl hne
  | cons x xs ih =>
    cases xs with
    | nil => simp [joinL, splitC_not_mem (h x (by simp))]
    | cons y ys =>
      simp only [joinL]
      rw [splitC_append_sep _ (h x (by simp))]
      rw [ih (by simp) (fun t ht => h t (by simp [ht]))]

theorem joinL_three (sep : Char) (a b c : List Char) :
    joinL sep [a, b, c] = a ++ sep :: (b ++ sep :: c) := rfl

theorem split3_join {a b p : List Char} (ha : ':' ∉ a) (hb : ':' ∉ b)
    (hp : ':' ∉ p) : split3 (joinL ':' [a, b, p]) = some (a, b, p) := by
  rw [split3, joinL_three, splitC_append_sep _ ha, splitC_append_sep _ hb,
    splitC_not_mem hp]

theorem count_joinL_three {a b p : List Char} (ha : ':' ∉ a) (hb : ':' ∉ b)
    (hp : ':' ∉ p) : (joinL ':' [a, b, p]).count ':' = 2 := by
  rw [joinL_three]
  simp [List.count_append, List.count_cons,
    List.count_eq_zero_of_not_mem ha, List.count_eq_zero_of_not_mem hb,
    List.count_eq_zero_of_not_mem hp]

/-! ### Lemmas about decimal digits -/

theorem charToDigit_digitToChar {d : ℕ} (h : d < 10) :
    charToDigit (digitToChar d) = some d := by
  interval_cases d <;> rfl

theorem isDig_digitToChar (d : ℕ) : isDig (digitToChar d) = true := by
  by_cases h : d < 10
  · rw [isDig, charToDigit_digitToChar h]; rfl
  · have : digitToChar d = '9' := by
      rw [digitToChar]
      repeat rw [if_neg (by omega)]
    rw [this]; rfl

theorem pyStrNatAux_spec {fuel n : ℕ} (h : n < fuel) :
    pyStrNatAux fuel n ≠ [] ∧ (∀ c ∈ pyStrNatAux fuel n, isDig c = true) ∧
      digitsVal (pyStrNatAux fuel n) = n := by
  induction fuel generalizing n with
  | zero => omega
  | succ fuel ih =>
    rw [pyStrNatAux]
    by_cases h10 : n < 10
    · rw [if_pos h10]
      refine ⟨by simp, by simpa using isDig_digitToChar n, ?_⟩
      simp [digitsVal, charToDigit_digitToChar h10]
    · rw [if_neg h10]
      have hlt : n / 10 < fuel := by
        have := Nat.div_lt_self (by omega : 0 < n) (by omega : 1 < 10)
        omega
      obtain ⟨hne, hdig, hval⟩ := ih hlt
      refine ⟨by simp [hne], ?_, ?_⟩
      · intro c hc
        rcases List.mem_append.mp hc with hc | hc
        · exact hdig c hc
        · simp only [List.mem_singleton] at hc
          subst hc
          exact isDig_digitToChar _
      · rw [digitsVal, List.foldl_append]
        simp only [List.foldl_cons, List.foldl_nil]
        rw [charToDigit_digitToChar (Nat.mod_lt n (by omega))]
        rw [digitsVal] at hval
        rw [hval]
        simp only [Option.getD_some]
        omega

theorem pyStrNat_ne_nil (n : ℕ) : pyStrNat n ≠ [] :=
  (pyStrNatAux_spec (Nat.lt_succ_self n)).1

theorem pyStrNat_all_dig (n : ℕ) : ∀ c ∈ pyStrNat n, isDig c = true :=
  (pyStrNatAux_spec (Nat.lt_succ_self n)).2.1

theorem digitsVal_pyStrNat (n : ℕ) : digitsVal (pyStrNat n) = n :=
  (pyStrNatAux_spec (Nat.lt_succ_self n)).2.2

theorem not_mem_pyStrNat_of_not_dig {c : Char} (hc : isDig c = false) (n : ℕ) :
    c ∉ pyStrNat n := by
  intro hmem
  have := pyStrNat_all_dig n c hmem
  rw [hc] at this
  exact Bool.false_ne_true this

theorem parseDigits_pyStrNat (n : ℕ) : parseDigits (pyStrNat n) = some n := by
  rw [parseDigits, if_pos, digitsVal_pyStrNat]
  exact ⟨pyStrNat_ne_nil n, List.all_eq_true.mpr (pyStrNat_all_dig n)⟩

theorem pyInt_pyStrNat (n : ℕ) : pyInt (pyStrNat n) = some (n : ℤ) := by
  obtain ⟨c, s, hcs⟩ : ∃ c s, pyStrNat n = c :: s := by
    cases h : pyStrNat n with
    | nil => exact absurd h (pyStrNat_ne_nil n)
    | cons c s => exact ⟨c, s, rfl⟩
  have hdig : isDig c = true := pyStrNat_all_dig n c (by rw [hcs]; simp)
  have hcm : c ≠ '-' := by rintro rfl; simp [isDig, charToDigit] at hdig
  have hcp : c ≠ '+' := by rintro rfl; simp [isDig, charToDigit] at hdig
  rw [pyInt, hcs]
  simp only [List.head?_cons, Option.some.injEq]
  rw [if_neg hcm, if_neg hcp, ← hcs, parseDigits_pyStrNat]
  rfl

theorem pyStrInt_natCast (n : ℕ) : pyStrInt (n : ℤ) = pyStrNat n := by
  rw [pyStrInt, if_neg (by omega : ¬((n : ℤ) < 0))]
  simp

/-! ### The identifier codec round-trip -/

theorem pyIndexOf_append {k : List Char} (r : List Char) (h : '(' ∉ k) :
    pyIndexOf '(' (k ++ '(' :: r) = some k.length := by
  induction k with
  | nil => simp [pyIndexOf]
  | cons c cs ih =>
    simp only [List.mem_cons, not_or] at h
    simp only [List.cons_append, List.append_eq, pyIndexOf, if_neg (Ne.symm h.1)]
    rw [ih h.2]
    rfl

/-- The shape computed by `parse_id` on any string of the form
`k ++ "(" ++ str i ++ c` for a single final character `c`: the final
character is sliced away unexamined. -/
theorem parse_id_shape {k : List Char} (i : ℕ) (c : Char) (h : '(' ∉ k) :
    parse_id ((k ++ '(' :: pyStrNat i) ++ [c]) = .ok (k, (i : ℤ)) := by
  have h1 : (k ++ '(' :: pyStrNat i) ++ [c] = k ++ '(' :: (pyStrNat i ++ [c]) := by
    simp
  have hidx : pyIndexOf '(' ((k ++ '(' :: pyStrNat i) ++ [c]) = some k.length := by
    rw [h1]
    exact pyIndexOf_append _ h
  have htake1 : ((k ++ '(' :: pyStrNat i) ++ [c]).take
      (((k ++ '(' :: pyStrNat i) ++ [c]).length - 1) = k ++ '(' :: pyStrNat i := by
    have hlen : ((k ++ '(' :: pyStrNat i) ++ [c]).length - 1 =
        (k ++ '(' :: pyStrNat i).length := by
      simp
    rw [hlen, List.take_left]
  have htk : ((k ++ '(' :: pyStrNat i) ++ [c]).take k.length = k := by
    rw [h1, List.take_left]
  have hdrop : (k ++ '(' :: pyStrNat i).drop (k.length + 1) = pyStrNat i := by
    have h2 : k ++ '(' :: pyStrNat i = (k ++ ['(']) ++ pyStrNat i := by simp
    have hlen : k.length + 1 = (k ++ ['(']).length := by simp
    rw [h2, hlen, List.drop_left]
  simp only [parse_id, hidx, htk, htake1, hdrop, pyInt_pyStrNat]

/-! ### The message envelope

The envelope codec is inlined in the source: messages are built with
`':'.join([cmd, target, '-'.join(params)])` and taken apart with
`msg.split(':')` followed by `params.split('-')`. -/

/-- Message encoding as performed by `qtask` (line 83) and `ctask` (line 101):
the three fields joined with `':'`, the payload tokens joined with `'-'`. -/
def encodeMsg (cmd target : List Char) (params : List (List Char)) : List Char :=
  joinL ':' [cmd, target, joinL '-' params]

/-- Message decoding as performed by `qtask` (lines 75, 81) and `ctask`
(lines 96, 100): split on `':'` into exactly three fields (`ValueError`
otherwise), then split the payload field on `'-'`. -/
def decodeMsg (msg : List Char) :
    Except PyErr (List Char × List Char × List (List Char)) :=
  match split3 msg with
  | none => .error .valueError
  | some (cmd, target, params) => .ok (cmd, target, splitC '-' params)

/-- A payload token as used by the tasks: non-empty and free of both
separators. -/
def GoodTok (t : List Char) : Prop := t ≠ [] ∧ ':' ∉ t ∧ '-' ∉ t

theorem joinL_dash_no_colon {P : List (List Char)} (h : ∀ t ∈ P, GoodTok t) :
    ':' ∉ joinL '-' P :=
  not_mem_joinL (by decide) (fun t ht => (h t ht).2.1)

theorem split3_encodeMsg {cmd target : List Char} {P : List (List Char)}
    (hc : ':' ∉ cmd) (ht : ':' ∉ target) (hP : ∀ t ∈ P, GoodTok t) :
    split3 (encodeMsg cmd target P) = some (cmd, target, joinL '-' P) :=
  split3_join hc ht (joinL_dash_no_colon hP)

theorem splitC_dash_joinL {P : List (List Char)} (hne : P ≠ [])
    (hP : ∀ t ∈ P, GoodTok t) : splitC '-' (joinL '-' P) = P :=
  splitC_joinL hne (fun t ht => (hP t ht).2.2)

theorem count_encodeMsg {cmd target : List Char} {P : List (List Char)}
    (hc : ':' ∉ cmd) (ht : ':' ∉ target) (hP : ∀ t ∈ P, GoodTok t) :
    (encodeMsg cmd target P).count ':' = 2 :=
  count_joinL_three hc ht (joinL_dash_no_colon hP)

/-! ### The server task, one message at a time

`qtask` (lines 58–85) is a loop over the messages of the server's own
queue; `qtaskStep` is the body of that loop for one received message. -/

/-- What the server does with one message. -/
inductive QAct
  | exit
  | drop
  | relay (cidx : ℕ) (msg : List Char)
deriving DecidableEq, Repr

/-- Python list indexing `xs[i]` on a list of length `len`: non-negative
indices must be `< len`, negative indices count from the end, anything else
raises `IndexError`. -/
def pyListIndex (len : ℕ) (i : ℤ) : Except PyErr ℕ :=
  if 0 ≤ i ∧ i < (len : ℤ) then .ok i.toNat
  else if -(len : ℤ) ≤ i ∧ i < 0 then .ok ((len : ℤ) + i).toNat
  else .error .indexError

/-- The body of the `qtask` loop (lines 74–85) for one message: split the
envelope, exit on an `exit` command, otherwise parse the target id, extend
the payload with this server's id, and relay to `ctask_queues[idx]` when the
target kind is `cq` — any other kind is silently dropped. -/
def qtaskStep (num_ctasks qtid : ℕ) (msg : List Char) : Except PyErr QAct :=
  match split3 msg with
  | none => .error .valueError
  | some (cmd, qidx, params) =>
    if cmd = chars "exit" then .ok .exit
    else
      match parse_id qidx with
      | .error e => .error e
      | .ok (name, idx) =>
        let new_params := splitC '-' params ++ [build_id (chars "qtask") (qtid : ℤ)]
        if name = chars "cq" then
          match pyListIndex num_ctasks idx with
          | .error e => .error e
          | .ok cix => .ok (.relay cix
              (encodeMsg (chars "queue") (build_id (chars "ct") idx) new_params))
        else .ok .drop

/-- `qtask`'s whole loop (lines 74–85) over the FIFO contents of its queue:
relays accumulate until an `exit` command stops the task; an exhausted list
with no `exit` leaves the task blocked on its queue. -/
inductive TaskRun
  | finished (sends : List (ℕ × List Char))
  | blocked (sends : List (ℕ × List Char))
  | failed (e : PyErr) (sends : List (ℕ × List Char))
deriving DecidableEq, Repr

/-- Prepend an accomplished send to a task outcome. -/
def consSendT (s : ℕ × List Char) : TaskRun → TaskRun
  | .finished l => .finished (s :: l)
  | .blocked l => .blocked (s :: l)
  | .failed e l => .failed e (s :: l)

def qtaskProcess (num_ctasks qtid : ℕ) : List (List Char) → TaskRun
  | [] => .blocked []
  | m :: rest =>
    match qtaskStep num_ctasks qtid m with
    | .error e => .failed e []
    | .ok .exit => .finished []
    | .ok .drop => qtaskProcess num_ctasks qtid rest
    | .ok (.relay cix m') => consSendT (cix, m') (qtaskProcess num_ctasks qtid rest)

/-! ### The client task

`ctask` (lines 88–108): seed one message to server `ctid % num_qtasks`,
then for each received message advance the destination round-robin, append
the client's own id to the payload, re-send, and stop once the counter,
initialised to `num_qtasks`, falls below 1. -/

/-- The body of the `ctask` loop (lines 96–102) for one received message:
split the envelope, advance `dst_ix`, extend the payload with this client's
id, and build the outgoing message addressed to `cq(ctid)`.
`divmod(dst_ix + 1, num_qtasks)[1]` is `% num_qtasks`; its
`ZeroDivisionError` case is unreachable here because `ctask` has already
divided by `num_qtasks` once before its loop. -/
def ctaskStep (num_qtasks ctid dst : ℕ) (msg : List Char) :
    Except PyErr (ℕ × List Char) :=
  match split3 msg with
  | none => .error .valueError
  | some (_, _, params) =>
    let dst' := (dst + 1) % num_qtasks
    let new_params := splitC '-' params ++ [build_id (chars "ctask") (ctid : ℤ)]
    .ok (dst', encodeMsg (chars "queue") (build_id (chars "cq") (ctid : ℤ)) new_params)

/-- Outcome of the client loop on a given stream of received messages. -/
inductive CtOut
  | done (sends : List (ℕ × List Char))
  | blocked (sends : List (ℕ × List Char))
  | failed (e : PyErr) (sends : List (ℕ × List Char))
deriving DecidableEq, Repr

/-- Prepend an accomplished send to a client outcome. -/
def consSendC (s : ℕ × List Char) : CtOut → CtOut
  | .done l => .done (s :: l)
  | .blocked l => .blocked (s :: l)
  | .failed e l => .failed e (s :: l)

/-- The `ctask` loop (lines 95–106) against an arbitrary stream `inbox` of
received messages: one send per received message, `count` decremented after
each send, break once it falls below 1; an exhausted inbox leaves the client
blocked on its queue. -/
def ctask_go (num_qtasks ctid : ℕ) : List (List Char) → ℕ → ℤ → CtOut
  | [], _, _ => .blocked []
  | msg :: rest, dst, count =>
    match ctaskStep num_qtasks ctid dst msg with
    | .error e => .failed e []
    | .ok (dst', m') =>
      if count - 1 < 1 then .done [(dst', m')]
      else consSendC (dst', m') (ctask_go num_qtasks ctid rest dst' (count - 1))

/-- The whole client task (lines 88–106) against an arbitrary stream of
received messages.  `divmod(ctid, num_qtasks)` raises `ZeroDivisionError`
when `num_qtasks = 0`; the iteration over `ctask_queues[ctid]` raises
`IndexError` when `ctid` is out of range (after the seed send). -/
def ctask (num_qtasks num_ctasks ctid : ℕ) (inbox : List (List Char)) : CtOut :=
  if num_qtasks = 0 then .failed .zeroDivisionError []
  else
    let dst := ctid % num_qtasks
    let seed := joinL ':' [chars "queue", build_id (chars "cq") (ctid : ℤ),
      build_id (chars "ctask") (ctid : ℤ)]
    if ctid < num_ctasks then
      consSendC (dst, seed) (ctask_go num_qtasks ctid inbox dst (num_qtasks : ℤ))
    else .failed .indexError [(dst, seed)]

/-! ### One client's closed loop with the servers

Under gevent every queue is FIFO and each server processes each message
independently of any other, so the messages originating from one client
form a deterministic ping-pong between that client and the round-robin
sequence of servers, whatever the interleaving with other clients.
`clientSession` plays that ping-pong out. -/

/-- An enqueue event of the run: a client putting a message on a server
queue, or a server putting a message on a client queue. -/
inductive Ev
  | csend (dst : ℕ) (msg : List Char)
  | qsend (cidx : ℕ) (msg : List Char)
deriving DecidableEq, Repr

/-- Outcome of a client session: the events in order, or the error that
stopped them, or a stuck client (its message was dropped or misrouted and
it waits forever). -/
inductive SessRes
  | ok (evs : List Ev)
  | err (e : PyErr) (evs : List Ev)
  | stuck (evs : List Ev)
deriving DecidableEq, Repr

/-- Prepend an event to a session outcome. -/
def consEv (e : Ev) : SessRes → SessRes
  | .ok l => .ok (e :: l)
  | .err x l => .err x (e :: l)
  | .stuck l => .stuck (e :: l)

/-- The ping-pong after the client has just enqueued `msg` on server `dst`:
the server relays it; while the client still has loop iterations left
(`fuel`), the client consumes the relay and re-sends.  At `fuel = 0` the
client has terminated and the final relay lands on its dead queue. -/
def sessionGo (num_qtasks num_ctasks ctid : ℕ) :
    ℕ → ℕ → List Char → SessRes
  | 0, dst, msg =>
    match qtaskStep num_ctasks dst msg with
    | .error e => .err e []
    | .ok .exit => .ok []
    | .ok .drop => .ok []
    | .ok (.relay cix m) => .ok [Ev.qsend cix m]
  | fuel + 1, dst, msg =>
    match qtaskStep num_ctasks dst msg with
    | .error e => .err e []
    | .ok .exit => .stuck []
    | .ok .drop => .stuck []
    | .ok (.relay cix m) =>
      if cix = ctid then
        match ctaskStep num_qtasks ctid dst m with
        | .error e => .err e [Ev.qsend cix m]
        | .ok (dst', m') =>
          consEv (Ev.qsend cix m) (consEv (Ev.csend dst' m')
            (sessionGo num_qtasks num_ctasks ctid fuel dst' m'))
      else .stuck [Ev.qsend cix m]

/-- One client's complete interaction with the servers: the seed send
(lines 91–94) followed by `num_qtasks` loop iterations (lines 95–106),
each triggered by the relay of the previous send. -/
def clientSession (num_qtasks num_ctasks ctid : ℕ) : SessRes :=
  if num_qtasks = 0 then .err .zeroDivisionError []
  else if ctid < num_ctasks then
    let dst := ctid % num_qtasks
    let seed := joinL ':' [chars "queue", build_id (chars "cq") (ctid : ℤ),
      build_id (chars "ctask") (ctid : ℤ)]
    consEv (Ev.csend dst seed) (sessionGo num_qtasks num_ctasks ctid num_qtasks dst seed)
  else .err .indexError []

/-- Destination index of each client send, in order. -/
def csendDsts (evs : List Ev) : List ℕ :=
  evs.filterMap (fun e => match e with | .csend d _ => some d | _ => none)

/-- Message of each client send, in order. -/
def csendMsgs (evs : List Ev) : List (List Char) :=
  evs.filterMap (fun e => match e with | .csend _ m => some m | _ => none)

/-- Message of each server send, in order. -/
def qsendMsgs (evs : List Ev) : List (List Char) :=
  evs.filterMap (fun e => match e with | .qsend _ m => some m | _ => none)

/-- Message of every enqueue event, in order. -/
def evMsgs (evs : List Ev) : List (List Char) :=
  evs.map (fun e => match e with | .csend _ m => m | .qsend _ m => m)

/-- Number of payload tokens of a well-formed message. -/
def payloadTokens (msg : List Char) : ℕ :=
  match split3 msg with
  | some (_, _, params) => (splitC '-' params).length
  | none => 0

/-- Number of client sends of a session that completed normally. -/
def sessionCsendCount : SessRes → Option ℕ
  | .ok evs => some (csendDsts evs).length
  | _ => none

/-! ### The orchestrator and the run harness -/

/-- The message the orchestrator puts on every server queue after all
clients have terminated (line 41). -/
def exitMsg : List Char := chars "exit::"

/-- `QMark.run` (lines 31–44) specialised to `num_ctasks = 0`: the client
join is empty, so every server queue receives exactly the orchestrator's
exit message; the run then returns its elapsed time.  One outcome per
server task. -/
def runNoClients (num_qtasks : ℕ) : List TaskRun :=
  (List.range num_qtasks).map (fun qtid => qtaskProcess 0 qtid [exitMsg])

/-- The constructor arguments of a `QMark` instance (lines 26–29):
`__init__` stores them without any validation. -/
structure QMark where
  num_qtasks : ℤ
  num_ctasks : ℤ
  debug : Bool
deriving DecidableEq, Repr

/-- `run_qmark` (lines 110–132).  The wall-clock measurement of
`QMark.run` is abstracted as an oracle `runOnce ix inst` giving the elapsed
seconds of iteration `ix` on instance `inst` (floats are modelled as the
rationals they denote).  The control flow is the source's: clamp `num_runs`
to at least 1, then run a freshly constructed `QMark(num_qtasks, num_ctasks)`
once per iteration, collecting the results in order. -/
def run_qmark (runOnce : ℕ → QMark → ℚ) (num_qtasks num_ctasks : ℤ)
    (num_runs : ℤ) : List ℚ :=
  let n := if num_runs < 1 then 1 else num_runs
  (List.range n.toNat).map (fun ix => runOnce ix ⟨num_qtasks, num_ctasks, false⟩)

/-! ### The reporter -/

/-- `avg = sum(results)/num_runs` (lines 138 and 148). -/
def reportAvg (results : List ℚ) : ℚ := results.sum / (results.length : ℚ)

/-- `sqr = [(x-avg)*(x-avg) for x in results]` (line 149). -/
def reportSqr (results : List ℚ) : List ℚ :=
  results.map (fun x => (x - reportAvg results) * (x - reportAvg results))

/-- `stdev = math.sqrt(sum(sqr)/num_runs)` (line 150). -/
noncomputable def reportStdev (results : List ℚ) : ℝ :=
  Real.sqrt (((reportSqr results).sum / (results.length : ℚ) : ℚ))

/-- Python `int()` applied to a float: truncation toward zero. -/
def pyTrunc (x : ℚ) : ℤ := if 0 ≤ x then ⌊x⌋ else ⌈x⌉

/-- `qm = int(1000.0/avg)` (lines 139 and 151). -/
def reportQm (results : List ℚ) : ℤ := pyTrunc (1000 / reportAvg results)

/-! ### Step lemmas for the session -/

/-- A message from a client to a server: command `queue`, target `cq(ctid)`,
payload tokens `P` (lines 93 and 101). -/
def cMsg (ctid : ℕ) (P : List (List Char)) : List Char :=
  encodeMsg (chars "queue") (build_id (chars "cq") (ctid : ℤ)) P

/-- A message relayed by a server to a client: command `queue`, target
`ct(ctid)`, payload tokens `P` (line 83). -/
def tMsg (ctid : ℕ) (P : List (List Char)) : List Char :=
  encodeMsg (chars "queue") (build_id (chars "ct") (ctid : ℤ)) P

theorem goodTok_build_id {name : List Char} (h1 : ':' ∉ name) (h2 : '-' ∉ name)
    (i : ℕ) : GoodTok (build_id name (i : ℤ)) := by
  rw [build_id, pyStrInt_natCast]
  refine ⟨by simp, ?_, ?_⟩
  · intro hmem
    rcases List.mem_append.mp hmem with hm | hm
    · rcases List.mem_append.mp hm with hm | hm
      · exact h1 hm
      · rcases List.mem_cons.mp hm with hm | hm
        · exact absurd hm (by decide)
        · exact not_mem_pyStrNat_of_not_dig (by decide) i hm
    · rcases List.mem_singleton.mp hm with hm
      exact absurd hm (by decide)
  · intro hmem
    rcases List.mem_append.mp hmem with hm | hm
    · rcases List.mem_append.mp hm with hm | hm
      · exact h2 hm
      · rcases List.mem_cons.mp hm with hm | hm
        · exact absurd hm (by decide)
        · exact not_mem_pyStrNat_of_not_dig (by decide) i hm
    · rcases List.mem_singleton.mp hm with hm
      exact absurd hm (by decide)

theorem parse_build_id {k : List Char} (h : '(' ∉ k) (i : ℕ) :
    parse_id (build_id k (i : ℤ)) = .ok (k, (i : ℤ)) := by
  rw [build_id, pyStrInt_natCast]
  exact parse_id_shape i ')' h

theorem pyListIndex_natCast {len i : ℕ} (h : i < len) :
    pyListIndex len (i : ℤ) = .ok i := by
  rw [pyListIndex, if_pos (by omega)]
  simp

theorem payloadTokens_encodeMsg {cmd target : List Char} {P : List (List Char)}
    (hc : ':' ∉ cmd) (ht : ':' ∉ target) (hP : ∀ t ∈ P, GoodTok t)
    (hne : P ≠ []) : payloadTokens (encodeMsg cmd target P) = P.length := by
  rw [payloadTokens, split3_encodeMsg hc ht hP]
  show (splitC '-' (joinL '-' P)).length = P.length
  rw [splitC_dash_joinL hne hP]

/-- The server step on a client message (lines 74–85): the envelope splits,
the command is `queue`, the target parses to `("cq", ctid)`, and the server
relays to client `ctid` with its own id appended to the payload. -/
theorem qtaskStep_cMsg {num_ctasks ctid : ℕ} (qtid : ℕ) {P : List (List Char)}
    (hc : ctid < num_ctasks) (hP : ∀ t ∈ P, GoodTok t) (hne : P ≠ []) :
    qtaskStep num_ctasks qtid (cMsg ctid P) =
      .ok (.relay ctid (tMsg ctid (P ++ [build_id (chars "qtask") (qtid : ℤ)]))) := by
  have hgood : GoodTok (build_id (chars "cq") (ctid : ℤ)) :=
    goodTok_build_id (by decide) (by decide) ctid
  rw [qtaskStep, cMsg, split3_encodeMsg (by decide) hgood.2.1 hP]
  show (if chars "queue" = chars "exit" then Except.ok QAct.exit else _) = _
  rw [if_neg (by decide), parse_build_id (by decide) ctid]
  show (if chars "cq" = chars "cq" then _ else Except.ok QAct.drop) = _
  rw [if_pos rfl, pyListIndex_natCast hc]
  show Except.ok (QAct.relay ctid (encodeMsg (chars "queue")
    (build_id (chars "ct") (ctid : ℤ))
    (splitC '-' (joinL '-' P) ++ [build_id (chars "qtask") (qtid : ℤ)]))) = _
  rw [splitC_dash_joinL hne hP]
  rfl

/-- The client step on a server relay (lines 96–102): the envelope splits,
the destination advances round-robin, and the client re-sends to `cq(ctid)`
with its own id appended to the payload. -/
theorem ctaskStep_tMsg {num_qtasks ctid : ℕ} (dst : ℕ) {Q : List (List Char)}
    (hQ : ∀ t ∈ Q, GoodTok t) (hne : Q ≠ []) :
    ctaskStep num_qtasks ctid dst (tMsg ctid Q) =
      .ok ((dst + 1) % num_qtasks,
        cMsg ctid (Q ++ [build_id (chars "ctask") (ctid : ℤ)])) := by
  have hgood : GoodTok (build_id (chars "ct") (ctid : ℤ)) :=
    goodTok_build_id (by decide) (by decide) ctid
  rw [ctaskStep, tMsg, split3_encodeMsg (by decide) hgood.2.1 hQ]
  show Except.ok ((dst + 1) % num_qtasks, encodeMsg (chars "queue")
    (build_id (chars "cq") (ctid : ℤ))
    (splitC '-' (joinL '-' Q) ++ [build_id (chars "ctask") (ctid : ℤ)])) = _
  rw [splitC_dash_joinL hne hQ]
  rfl

theorem cMsg_wf {ctid : ℕ} {P : List (List Char)} (hP : ∀ t ∈ P, GoodTok t) :
    (cMsg ctid P).count ':' = 2 ∧ (split3 (cMsg ctid P)).isSome := by
  have hgood : GoodTok (build_id (chars "cq") (ctid : ℤ)) :=
    goodTok_build_id (by decide) (by decide) ctid
  constructor
  · exact count_encodeMsg (by decide) hgood.2.1 hP
  · rw [cMsg, split3_encodeMsg (by decide) hgood.2.1 hP]
    rfl

theorem tMsg_wf {ctid : ℕ} {P : List (List Char)} (hP : ∀ t ∈ P, GoodTok t) :
    (tMsg ctid P).count ':' = 2 ∧ (split3 (tMsg ctid P)).isSome := by
  have hgood : GoodTok (build_id (chars "ct") (ctid : ℤ)) :=
    goodTok_build_id (by decide) (by decide) ctid
  constructor
  · exact count_encodeMsg (by decide) hgood.2.1 hP
  · rw [tMsg, split3_encodeMsg (by decide) hgood.2.1 hP]
    rfl

/-! ### Event-list projections -/

theorem csendDsts_nil : csendDsts [] = [] := rfl
theorem csendDsts_cons_q (c : ℕ) (m : List Char) (l : List Ev) :
    csendDsts (Ev.qsend c m :: l) = csendDsts l := rfl
theorem csendDsts_cons_c (d : ℕ) (m : List Char) (l : List Ev) :
    csendDsts (Ev.csend d m :: l) = d :: csendDsts l := rfl
theorem csendMsgs_nil : csendMsgs [] = [] := rfl
theorem csendMsgs_cons_q (c : ℕ) (m : List Char) (l : List Ev) :
    csendMsgs (Ev.qsend c m :: l) = csendMsgs l := rfl
theorem csendMsgs_cons_c (d : ℕ) (m : List Char) (l : List Ev) :
    csendMsgs (Ev.csend d m :: l) = m :: csendMsgs l := rfl
theorem qsendMsgs_nil : qsendMsgs [] = [] := rfl
theorem qsendMsgs_cons_q (c : ℕ) (m : List Char) (l : List Ev) :
    qsendMsgs (Ev.qsend c m :: l) = m :: qsendMsgs l := rfl
theorem qsendMsgs_cons_c (d : ℕ) (m : List Char) (l : List Ev) :
    qsendMsgs (Ev.csend d m :: l) = qsendMsgs l := rfl
theorem evMsgs_nil : evMsgs [] = [] := rfl
theorem evMsgs_cons_q (c : ℕ) (m : List Char) (l : List Ev) :
    evMsgs (Ev.qsend c m :: l) = m :: evMsgs l := rfl
theorem evMsgs_cons_c (d : ℕ) (m : List Char) (l : List Ev) :
    evMsgs (Ev.csend d m :: l) = m :: evMsgs l := rfl

/-! ### The master session lemma -/

theorem sessionGo_spec {num_qtasks num_ctasks ctid : ℕ}
    (hn : 1 ≤ num_qtasks) (hc : ctid < num_ctasks) :
    ∀ (fuel dst : ℕ) (P : List (List Char)), P ≠ [] → (∀ t ∈ P, GoodTok t) →
    ∃ evs, sessionGo num_qtasks num_ctasks ctid fuel dst (cMsg ctid P) = .ok evs ∧
      csendDsts evs = (List.range fuel).map (fun j => (dst + 1 + j) % num_qtasks) ∧
      (csendMsgs evs).map payloadTokens =
        (List.range fuel).map (fun j => P.length + 2 * (j + 1)) ∧
      (qsendMsgs evs).length = fuel + 1 ∧
      (∀ m ∈ evMsgs evs, m.count ':' = 2 ∧ (split3 m).isSome) := by
  intro fuel
  induction fuel with
  | zero =>
    intro dst P hne hP
    have hQgood : ∀ t ∈ P ++ [build_id (chars "qtask") (dst : ℤ)], GoodTok t := by
      intro t ht
      rcases List.mem_append.mp ht with ht | ht
      · exact hP t ht
      · simp only [List.mem_singleton] at ht
        subst ht
        exact goodTok_build_id (by decide) (by decide) dst
    refine ⟨[Ev.qsend ctid (tMsg ctid (P ++ [build_id (chars "qtask") (dst : ℤ)]))],
      ?_, rfl, rfl, rfl, ?_⟩
    · rw [sessionGo, qtaskStep_cMsg dst hc hP hne]
    · intro m hm
      rw [evMsgs_cons_q, evMsgs_nil] at hm
      simp only [List.mem_singleton] at hm
      subst hm
      exact tMsg_wf hQgood
  | succ fuel ih =>
    intro dst P hne hP
    set qtok := build_id (chars "qtask") (dst : ℤ) with hqtok
    set ctok := build_id (chars "ctask") (ctid : ℤ) with hctok
    have hQgood : ∀ t ∈ P ++ [qtok], GoodTok t := by
      intro t ht
      rcases List.mem_append.mp ht with ht | ht
      · exact hP t ht
      · simp only [List.mem_singleton] at ht
        subst ht
        exact goodTok_build_id (by decide) (by decide) dst
    have hPgood' : ∀ t ∈ (P ++ [qtok]) ++ [ctok], GoodTok t := by
      intro t ht
      rcases List.mem_append.mp ht with ht | ht
      · exact hQgood t ht
      · simp only [List.mem_singleton] at ht
        subst ht
        exact goodTok_build_id (by decide) (by decide) ctid
    have hctgood : GoodTok (build_id (chars "ct") (ctid : ℤ)) :=
      goodTok_build_id (by decide) (by decide) ctid
    obtain ⟨evs, heq, hdsts, hlens, hqlen, hcolon⟩ :=
      ih ((dst + 1) % num_qtasks) ((P ++ [qtok]) ++ [ctok]) (by simp) hPgood'
    refine ⟨Ev.qsend ctid (tMsg ctid (P ++ [qtok])) ::
      Ev.csend ((dst + 1) % num_qtasks) (cMsg ctid ((P ++ [qtok]) ++ [ctok])) :: evs,
      ?_, ?_, ?_, ?_, ?_⟩
    · rw [sessionGo, qtaskStep_cMsg dst hc hP hne]
      simp only
      rw [if_true, ctaskStep_tMsg dst hQgood (by simp)]
      simp only
      rw [heq]
      simp only [consEv]
    · rw [csendDsts_cons_q, csendDsts_cons_c, hdsts, List.range_succ_eq_map]
      simp only [List.map_cons, List.map_map]
      refine congrArg₂ _ rfl ?_
      apply List.map_congr_left
      intro j _
      simp only [Function.comp_apply, Nat.succ_eq_add_one]
      calc ((dst + 1) % num_qtasks + 1 + j) % num_qtasks
          = ((dst + 1) % num_qtasks + (1 + j)) % num_qtasks := by ring_nf
        _ = (dst + 1 + (1 + j)) % num_qtasks := Nat.mod_add_mod _ _ _
        _ = (dst + 1 + (j + 1)) % num_qtasks := by ring_nf
    · rw [csendMsgs_cons_q, csendMsgs_cons_c, List.map_cons, hlens, List.range_succ_eq_map]
      simp only [List.map_cons, List.map_map]
      refine congrArg₂ _ ?_ ?_
      · rw [cMsg, payloadTokens_encodeMsg (by decide)
          (goodTok_build_id (by decide) (by decide) ctid).2.1 hPgood' (by simp)]
        simp only [List.length_append, List.length_singleton]
      · apply List.map_congr_left
        intro j _
        simp only [Function.comp_apply, Nat.succ_eq_add_one,
          List.length_append, List.length_singleton]
        omega
    · rw [qsendMsgs_cons_q, qsendMsgs_cons_c, List.length_cons, hqlen]
    · intro m hm
      rw [evMsgs_cons_q, evMsgs_cons_c] at hm
      simp only [List.mem_cons] at hm
      rcases hm with hm | hm | hm
      · subst hm
        exact tMsg_wf hQgood
      · subst hm
        exact cMsg_wf hPgood'
      · exact hcolon m hm

/-- The seed message (line 93) is `cMsg ctid [ctask(ctid)]`. -/
theorem seed_eq_cMsg (ctid : ℕ) :
    joinL ':' [chars "queue", build_id (chars "cq") (ctid : ℤ),
      build_id (chars "ctask") (ctid : ℤ)] =
    cMsg ctid [build_id (chars "ctask") (ctid : ℤ)] := rfl

/-- The full behaviour of one client's session: the number and destinations
of all its sends, the payload growth, and the well-formedness of every
message exchanged. -/
theorem clientSession_spec {num_qtasks num_ctasks ctid : ℕ}
    (hn : 1 ≤ num_qtasks) (hc : ctid < num_ctasks) :
    ∃ evs, clientSession num_qtasks num_ctasks ctid = .ok evs ∧
      csendDsts evs =
        (List.range (num_qtasks + 1)).map (fun j => (ctid + j) % num_qtasks) ∧
      (csendMsgs evs).map payloadTokens =
        (List.range (num_qtasks + 1)).map (fun j => 2 * j + 1) ∧
      (qsendMsgs evs).length = num_qtasks + 1 ∧
      (∀ m ∈ evMsgs evs, m.count ':' = 2 ∧ (split3 m).isSome) := by
  have hctokgood : GoodTok (build_id (chars "ctask") (ctid : ℤ)) :=
    goodTok_build_id (by decide) (by decide) ctid
  obtain ⟨evs, heq, hdsts, hlens, hqlen, hcolon⟩ :=
    sessionGo_spec hn hc num_qtasks (ctid % num_qtasks)
      [build_id (chars "ctask") (ctid : ℤ)] (by simp)
      (by intro t ht; simp only [List.mem_singleton] at ht; subst ht; exact hctokgood)
  refine ⟨Ev.csend (ctid % num_qtasks)
    (cMsg ctid [build_id (chars "ctask") (ctid : ℤ)]) :: evs, ?_, ?_, ?_, ?_, ?_⟩
  · rw [clientSession, if_neg (by omega), if_pos hc]
    simp only [seed_eq_cMsg, consEv]
    rw [heq]
  · rw [csendDsts_cons_c, hdsts, List.range_succ_eq_map]
    simp only [List.map_cons, List.map_map]
    refine congrArg₂ _ rfl ?_
    apply List.map_congr_left
    intro j _
    simp only [Function.comp_apply, Nat.succ_eq_add_one]
    calc (ctid % num_qtasks + 1 + j) % num_qtasks
        = (ctid % num_qtasks + (1 + j)) % num_qtasks := by ring_nf
      _ = (ctid + (1 + j)) % num_qtasks := Nat.mod_add_mod _ _ _
      _ = (ctid + (j + 1)) % num_qtasks := by ring_nf
  · rw [csendMsgs_cons_c, List.map_cons, hlens, List.range_succ_eq_map]
    simp only [List.map_cons, List.map_map]
    refine congrArg₂ _ ?_ ?_
    · rw [cMsg, payloadTokens_encodeMsg (by decide)
        (goodTok_build_id (by decide) (by decide) ctid).2.1
        (by intro t ht; simp only [List.mem_singleton] at ht; subst ht; exact hctokgood)
        (by simp)]
      rfl
    · apply List.map_congr_left
      intro j _
      simp only [Function.comp_apply, Nat.succ_eq_add_one, List.length_singleton]
      omega
  · rw [qsendMsgs_cons_c, hqlen]
  · intro m hm
    rw [evMsgs_cons_c] at hm
    simp only [List.mem_cons] at hm
    rcases hm with hm | hm
    · subst hm
      refine cMsg_wf ?_
      intro t ht
      simp only [List.mem_singleton] at ht
      subst ht
      exact hctokgood
    · exact hcolon m hm

/-! ### The client's destination sequence against an arbitrary inbox -/

/-- Destination queue index of every send of a client outcome, in order. -/
def ctOutDsts : CtOut → List ℕ
  | .done l => l.map Prod.fst
  | .blocked l => l.map Prod.fst
  | .failed _ l => l.map Prod.fst

theorem ctOutDsts_consSendC (s : ℕ × List Char) (o : CtOut) :
    ctOutDsts (consSendC s o) = s.1 :: ctOutDsts o := by
  cases o <;> rfl

/-- Whatever the content of a received message, as long as its envelope
splits into three fields the client step advances the destination to
`(dst + 1) % num_qtasks`. -/
theorem ctaskStep_dst {num_qtasks ctid dst : ℕ} {msg : List Char}
    (h : (split3 msg).isSome) :
    ∃ m', ctaskStep num_qtasks ctid dst msg = .ok ((dst + 1) % num_qtasks, m') := by
  rw [ctaskStep]
  cases hs : split3 msg with
  | none => rw [hs] at h; exact absurd h (by simp)
  | some t =>
    obtain ⟨c, q, p⟩ := t
    exact ⟨_, rfl⟩

theorem ctask_go_dsts {num_qtasks ctid : ℕ} :
    ∀ (inbox : List (List Char)) (dst : ℕ) (count : ℤ), 1 ≤ count →
    (∀ m ∈ inbox, (split3 m).isSome) →
    ctOutDsts (ctask_go num_qtasks ctid inbox dst count) =
      (List.range (min inbox.length count.toNat)).map
        (fun j => (dst + 1 + j) % num_qtasks) := by
  intro inbox
  induction inbox with
  | nil => intro dst count _ _; simp [ctask_go, ctOutDsts]
  | cons msg rest ih =>
    intro dst count hcount hin
    obtain ⟨m', hstep⟩ :=
      @ctaskStep_dst num_qtasks ctid dst msg (hin msg (by simp))
    rw [ctask_go, hstep]
    simp only
    by_cases hlast : count - 1 < 1
    · rw [if_pos hlast]
      have h1 : count.toNat = 1 := by omega
      have h2 : min (msg :: rest).length count.toNat = 1 := by
        simp only [List.length_cons, h1]
        omega
      rw [h2]
      rfl
    · rw [if_neg hlast, ctOutDsts_consSendC,
        ih ((dst + 1) % num_qtasks) (count - 1) (by omega)
          (fun m hm => hin m (by simp [hm]))]
      have h2 : min (msg :: rest).length count.toNat =
          min rest.length (count - 1).toNat + 1 := by
        simp only [List.length_cons]
        omega
      rw [h2, List.range_succ_eq_map]
      simp only [List.map_cons, List.map_map]
      refine congrArg₂ _ rfl ?_
      apply List.map_congr_left
      intro j _
      simp only [Function.comp_apply, Nat.succ_eq_add_one]
      calc ((dst + 1) % num_qtasks + 1 + j) % num_qtasks
          = ((dst + 1) % num_qtasks + (1 + j)) % num_qtasks := by ring_nf
        _ = (dst + 1 + (1 + j)) % num_qtasks := Nat.mod_add_mod _ _ _
        _ = (dst + 1 + (j + 1)) % num_qtasks := by ring_nf

/-! ## The claims -/

/-- C1, as stated, is false: with `num_qtasks = 1` and one client, the claim
predicts exactly 1 relay hop and 1 appended token, but the client of the
session performs 2 sends (seed plus one relay per loop iteration, and the
loop's counter is decremented only after its relay), appending one token
each time. -/
theorem claim1_counterexample :
    sessionCsendCount (clientSession 1 1 0) = some 2 ∧
    sessionCsendCount (clientSession 1 1 0) ≠ some 1 := by
  decide

/-- C1 (amended): each client task causes exactly `num_qtasks + 1` sends in
total — one seed send plus `num_qtasks` further relays triggered by received
messages — and it appends exactly `num_qtasks + 1` path tokens across its
lifetime (one per send); its `j`-th send carries `2*j + 1` payload tokens,
hence the last one carries `2*num_qtasks + 1`. -/
theorem claim1_client_hops {num_qtasks num_ctasks ctid : ℕ}
    (hn : 1 ≤ num_qtasks) (hc : ctid < num_ctasks) :
    ∃ evs, clientSession num_qtasks num_ctasks ctid = .ok evs ∧
      (csendDsts evs).length = num_qtasks + 1 ∧
      (csendMsgs evs).map payloadTokens =
        (List.range (num_qtasks + 1)).map (fun j => 2 * j + 1) := by
  obtain ⟨evs, heq, hdsts, hlens, _, _⟩ := clientSession_spec hn hc
  exact ⟨evs, heq, by rw [hdsts]; simp, hlens⟩

/-- Witness for C1's amended theorem at `num_qtasks = 2`, one client. -/
theorem claim1_client_hops_witness :
    1 ≤ 2 ∧ 0 < 1 ∧
    ∃ evs, clientSession 2 1 0 = .ok evs ∧
      (csendDsts evs).length = 2 + 1 ∧
      (csendMsgs evs).map payloadTokens =
        (List.range (2 + 1)).map (fun j => 2 * j + 1) :=
  ⟨by decide, by decide, claim1_client_hops (by decide) (by decide)⟩

/-- C2, as stated, fails on the empty token sequence: Python's
`''.split('-')` is `['']`, so a message with an empty payload field decodes
to one empty token, not to the empty sequence. -/
theorem claim2_counterexample :
    decodeMsg (encodeMsg (chars "queue") (chars "cq(0)") []) =
      .ok (chars "queue", chars "cq(0)", [[]]) ∧
    decodeMsg (encodeMsg (chars "queue") (chars "cq(0)") []) ≠
      .ok (chars "queue", chars "cq(0)", []) := by
  decide

/-- C2 (amended): for every command, target and non-empty payload token
sequence avoiding the reserved separators, decoding the encoding returns the
original triple; the empty sequence is excluded because its encoding decodes
to a single empty token. -/
theorem claim2_roundtrip {c t : List Char} {p : List (List Char)}
    (hc : ':' ∉ c) (ht : ':' ∉ t)
    (hp : ∀ tok ∈ p, ':' ∉ tok ∧ '-' ∉ tok) (hne : p ≠ []) :
    decodeMsg (encodeMsg c t p) = .ok (c, t, p) := by
  rw [decodeMsg, encodeMsg,
    split3_join hc ht (not_mem_joinL (by decide) (fun tok htok => (hp tok htok).1))]
  show Except.ok (c, t, splitC '-' (joinL '-' p)) = _
  rw [splitC_joinL hne (fun tok htok => (hp tok htok).2)]

/-- Witness for C2's amended theorem on a concrete two-token payload. -/
theorem claim2_roundtrip_witness :
    ':' ∉ chars "queue" ∧ ':' ∉ chars "cq(0)" ∧
    (∀ tok ∈ [chars "ctask(0)", chars "qtask(1)"], ':' ∉ tok ∧ '-' ∉ tok) ∧
    ([chars "ctask(0)", chars "qtask(1)"] : List (List Char)) ≠ [] ∧
    decodeMsg (encodeMsg (chars "queue") (chars "cq(0)")
        [chars "ctask(0)", chars "qtask(1)"]) =
      .ok (chars "queue", chars "cq(0)", [chars "ctask(0)", chars "qtask(1)"]) :=
  ⟨by decide, by decide, by decide, by decide,
    claim2_roundtrip (by decide) (by decide) (by decide) (by decide)⟩

/-- C3: for every kind string without `'('` or `')'` and every non-negative
integer `i`, `parse_id (build_id k i) = (k, i)`. -/
theorem claim3_id_roundtrip {k : List Char} (h1 : '(' ∉ k) (h2 : ')' ∉ k)
    (i : ℕ) : parse_id (build_id k (i : ℤ)) = .ok (k, (i : ℤ)) :=
  parse_build_id h1 i

/-- Witness for C3 at `k = "cq"`, `i = 37`. -/
theorem claim3_id_roundtrip_witness :
    '(' ∉ chars "cq" ∧ ')' ∉ chars "cq" ∧
    parse_id (build_id (chars "cq") ((37 : ℕ) : ℤ)) =
      .ok (chars "cq", ((37 : ℕ) : ℤ)) :=
  ⟨by decide, by decide, claim3_id_roundtrip (by decide) (by decide) 37⟩

/-- C4: the sequence of server-queue indices client `ctid` enqueues onto is
`ctid % num_qtasks` for the seed send followed by `(previous + 1) %
num_qtasks` at each subsequent relay — `(ctid + j) % num_qtasks` at step `j`
— and it depends only on the number of messages received, never on their
content. -/
theorem claim4_round_robin {num_qtasks num_ctasks ctid : ℕ}
    (hn : 1 ≤ num_qtasks) (hc : ctid < num_ctasks)
    (inbox : List (List Char)) (hin : ∀ m ∈ inbox, (split3 m).isSome) :
    ctOutDsts (ctask num_qtasks num_ctasks ctid inbox) =
      (List.range (min inbox.length num_qtasks + 1)).map
        (fun j => (ctid + j) % num_qtasks) := by
  rw [ctask, if_neg (by omega)]
  simp only
  rw [if_pos hc, ctOutDsts_consSendC,
    ctask_go_dsts inbox (ctid % num_qtasks) (num_qtasks : ℤ) (by exact_mod_cast hn) hin]
  rw [show ((num_qtasks : ℤ)).toNat = num_qtasks from by omega]
  rw [List.range_succ_eq_map]
  simp only [List.map_cons, List.map_map]
  refine congrArg₂ _ rfl ?_
  apply List.map_congr_left
  intro j _
  simp only [Function.comp_apply, Nat.succ_eq_add_one]
  calc (ctid % num_qtasks + 1 + j) % num_qtasks
      = (ctid % num_qtasks + (1 + j)) % num_qtasks := by ring_nf
    _ = (ctid + (1 + j)) % num_qtasks := Nat.mod_add_mod _ _ _
    _ = (ctid + (j + 1)) % num_qtasks := by ring_nf

/-- Witness for C4 at two servers, one client, and a two-message inbox whose
contents are irrelevant to the destinations. -/
theorem claim4_round_robin_witness :
    1 ≤ 2 ∧ 0 < 1 ∧
    (∀ m ∈ [chars "a:b:c", chars "x::z"], (split3 m).isSome) ∧
    ctOutDsts (ctask 2 1 0 [chars "a:b:c", chars "x::z"]) =
      (List.range (min ([chars "a:b:c", chars "x::z"] : List (List Char)).length 2 + 1)).map
        (fun j => (0 + j) % 2) :=
  ⟨by decide, by decide, by decide,
    claim4_round_robin (by decide) (by decide) _ (by decide)⟩

/-- C5: when a server processes a message whose command is `queue` and whose
target id parses to a kind other than `cq`, it enqueues nothing, raises no
error, and its loop proceeds unchanged to the next receive. -/
theorem claim5_silent_drop {num_ctasks qtid : ℕ}
    {msg cmd qidx params name : List Char} {idx : ℤ}
    (hsplit : split3 msg = some (cmd, qidx, params))
    (hcmd : cmd = chars "queue")
    (hparse : parse_id qidx = .ok (name, idx))
    (hname : name ≠ chars "cq") :
    qtaskStep num_ctasks qtid msg = .ok .drop ∧
    ∀ rest, qtaskProcess num_ctasks qtid (msg :: rest) =
      qtaskProcess num_ctasks qtid rest := by
  subst hcmd
  have hstep : qtaskStep num_ctasks qtid msg = .ok .drop := by
    rw [qtaskStep, hsplit]
    show (if chars "queue" = chars "exit" then Except.ok QAct.exit else _) = _
    rw [if_neg (by decide), hparse]
    show (if name = chars "cq" then _ else Except.ok QAct.drop) = _
    rw [if_neg hname]
  exact ⟨hstep, fun rest => by rw [qtaskProcess, hstep]⟩

/-- Witness for C5 on the concrete message `queue:qq(0):tok`. -/
theorem claim5_silent_drop_witness :
    split3 (chars "queue:qq(0):tok") =
      some (chars "queue", chars "qq(0)", chars "tok") ∧
    parse_id (chars "qq(0)") = .ok (chars "qq", 0) ∧
    chars "qq" ≠ chars "cq" ∧
    qtaskStep 3 1 (chars "queue:qq(0):tok") = .ok .drop :=
  ⟨by decide, by decide, by decide,
    (@claim5_silent_drop 3 1 (chars "queue:qq(0):tok") (chars "queue")
      (chars "qq(0)") (chars "tok") (chars "qq") 0
      (by decide) rfl (by decide) (by decide)).1⟩

/-- C6: on a non-empty list of positive samples the reporter's mean is
`sum/count`, its standard deviation is the population standard deviation
`sqrt(sum((x-mean)^2)/count)`, and the integer score is
`floor(1000/mean)` (Python's `int()` truncates toward zero, which on the
positive mean is the floor). -/
theorem claim6_reporter (results : List ℚ) (hne : results ≠ [])
    (hpos : ∀ x ∈ results, 0 < x) :
    reportAvg results = results.sum / (results.length : ℚ) ∧
    reportStdev results = Real.sqrt
      ((results.map (fun x : ℚ => ((x : ℝ) -
          (results.map (fun y : ℚ => (y : ℝ))).sum / (results.length : ℝ)) ^ 2)).sum
        / (results.length : ℝ)) ∧
    reportQm results = ⌊(1000 : ℚ) / (results.sum / (results.length : ℚ))⌋ := by
  have hsum : 0 < results.sum := List.sum_pos results hpos hne
  have hlen : 0 < results.length := List.length_pos.mpr hne
  have havg : 0 < reportAvg results := by
    rw [reportAvg]
    exact div_pos hsum (by exact_mod_cast hlen)
  refine ⟨rfl, ?_, ?_⟩
  · rw [reportStdev]
    congr 1
    have hc1 : (((reportSqr results).sum : ℚ) : ℝ) =
        ((reportSqr results).map (fun x : ℚ => (x : ℝ))).sum :=
      map_list_sum (Rat.castHom ℝ) _
    have hc2 : ((results.sum : ℚ) : ℝ) = (results.map (fun x : ℚ => (x : ℝ))).sum :=
      map_list_sum (Rat.castHom ℝ) _
    have hc3 : (((results.length : ℕ) : ℚ) : ℝ) = ((results.length : ℕ) : ℝ) := by
      push_cast
      ring
    rw [Rat.cast_div, hc1, hc3, reportSqr, List.map_map]
    congr 1
    congr 1
    apply List.map_congr_left
    intro x _
    simp only [Function.comp_apply, Rat.cast_mul, Rat.cast_sub]
    rw [reportAvg, Rat.cast_div, hc2, hc3]
    ring
  · rw [reportQm, pyTrunc,
      if_pos (le_of_lt (div_pos (by norm_num) havg)), reportAvg]

/-- Witness for C6 on the singleton sample list `[2]`. -/
theorem claim6_reporter_witness :
    ([(2 : ℚ)] ≠ []) ∧ (∀ x ∈ [(2 : ℚ)], 0 < x) ∧
    (reportAvg [(2 : ℚ)] = ([(2 : ℚ)].sum / (([(2 : ℚ)].length : ℕ) : ℚ)) ∧
    reportStdev [(2 : ℚ)] = Real.sqrt
      (([(2 : ℚ)].map (fun x : ℚ => ((x : ℝ) -
          ([(2 : ℚ)].map (fun y : ℚ => (y : ℝ))).sum / (([(2 : ℚ)].length : ℕ) : ℝ)) ^ 2)).sum
        / (([(2 : ℚ)].length : ℕ) : ℝ)) ∧
    reportQm [(2 : ℚ)] = ⌊(1000 : ℚ) / ([(2 : ℚ)].sum / (([(2 : ℚ)].length : ℕ) : ℚ))⌋) :=
  ⟨by decide, by norm_num, claim6_reporter [(2 : ℚ)] (by decide) (by norm_num)⟩

/-- C7: `run_qmark` clamps `num_runs` to at least 1 and returns exactly
`max(num_runs, 1)` samples in iteration order, each produced by the run of a
freshly constructed `QMark(num_qtasks, num_ctasks)` instance. -/
theorem claim7_run_harness (runOnce : ℕ → QMark → ℚ)
    (num_qtasks num_ctasks num_runs : ℤ)
    (h1 : 1 ≤ num_qtasks) (h2 : 1 ≤ num_ctasks) :
    run_qmark runOnce num_qtasks num_ctasks num_runs =
      (List.range (max num_runs 1).toNat).map
        (fun ix => runOnce ix ⟨num_qtasks, num_ctasks, false⟩) := by
  show (List.range (if num_runs < 1 then 1 else num_runs).toNat).map
      (fun ix => runOnce ix ⟨num_qtasks, num_ctasks, false⟩) = _
  rw [show (if num_runs < 1 then (1 : ℤ) else num_runs) = max num_runs 1 from by
    split_ifs <;> omega]

/-- Witness for C7 at `num_runs = -5`, which is clamped to a single run. -/
theorem claim7_run_harness_witness :
    (1 : ℤ) ≤ 1 ∧ (1 : ℤ) ≤ 1 ∧
    run_qmark (fun _ _ => (1 : ℚ)) 1 1 (-5) =
      (List.range (max (-5 : ℤ) 1).toNat).map
        (fun ix => (fun _ _ => (1 : ℚ)) ix (⟨1, 1, false⟩ : QMark)) :=
  ⟨le_refl 1, le_refl 1,
    claim7_run_harness (fun _ _ => (1 : ℚ)) 1 1 (-5) (le_refl 1) (le_refl 1)⟩

/-- C8, as stated, is false: with `num_qtasks = 1` and `num_ctasks = 0`
(violating the `numClients ≥ 1` precondition) no `ConfigError` — indeed no
error at all — reaches the caller: every server just consumes the
orchestrator's exit message and terminates, and the run returns a sample
normally. -/
theorem claim8_counterexample : runNoClients 1 = [TaskRun.finished []] := by
  decide

/-- C8 (amended): the code performs no validation of the task counts and
raises no `ConfigError`.  With any `num_qtasks` and zero clients the run
completes normally (each server cleanly processes its exit message); with
`num_qtasks = 0` a client task dies on `ZeroDivisionError` inside its own
greenlet before sending anything, which `gevent.joinall` (with its default
`raise_error=False`) does not surface to the caller. -/
theorem claim8_no_validation :
    (∀ num_qtasks : ℕ, runNoClients num_qtasks =
      (List.range num_qtasks).map (fun _ => TaskRun.finished [])) ∧
    (∀ (num_ctasks ctid : ℕ) (inbox : List (List Char)),
      ctask 0 num_ctasks ctid inbox = .failed .zeroDivisionError []) := by
  constructor
  · intro n
    rw [runNoClients]
    apply List.map_congr_left
    intro q _
    rfl
  · intro nc ctid inbox
    rw [ctask, if_pos rfl]

/-- C9: every message enqueued during a client's session — its seed, its
relays, and the servers' relays — as well as the orchestrator's `exit::`
message, contains exactly two `':'` characters, so the three-way
destructuring split always succeeds. -/
theorem claim9_messages_wellformed {num_qtasks num_ctasks ctid : ℕ}
    (hn : 1 ≤ num_qtasks) (hc : ctid < num_ctasks) :
    (∃ evs, clientSession num_qtasks num_ctasks ctid = .ok evs ∧
      ∀ m ∈ evMsgs evs, m.count ':' = 2 ∧ (split3 m).isSome) ∧
    exitMsg.count ':' = 2 ∧ (split3 exitMsg).isSome := by
  obtain ⟨evs, heq, _, _, _, hcolon⟩ := clientSession_spec hn hc
  exact ⟨⟨evs, heq, hcolon⟩, by decide, by decide⟩

/-- Witness for C9 at one server, one client. -/
theorem claim9_messages_wellformed_witness :
    1 ≤ 1 ∧ 0 < 1 ∧
    ((∃ evs, clientSession 1 1 0 = .ok evs ∧
      ∀ m ∈ evMsgs evs, m.count ':' = 2 ∧ (split3 m).isSome) ∧
    exitMsg.count ':' = 2 ∧ (split3 exitMsg).isSome) :=
  ⟨by decide, by decide, claim9_messages_wellformed (by decide) (by decide)⟩

/-- C10: `parse_id` never examines the final character of its input: for any
kind without `'('`, any `i ≥ 0` and any single trailing character `c`,
parsing `k ++ "(" ++ str i ++ c` succeeds with `(k, i)` — a missing or
mismatched `')'` is not detected. -/
theorem claim10_trailing_char {k : List Char} (h : '(' ∉ k) (i : ℕ) (c : Char) :
    parse_id ((k ++ '(' :: pyStrNat i) ++ [c]) = .ok (k, (i : ℤ)) :=
  parse_id_shape i c h

/-- Witness for C10 at `"cq(7x"`. -/
theorem claim10_trailing_char_witness :
    '(' ∉ chars "cq" ∧
    parse_id ((chars "cq" ++ '(' :: pyStrNat 7) ++ ['x']) =
      .ok (chars "cq", ((7 : ℕ) : ℤ)) :=
  ⟨by decide, claim10_trailing_char (by decide) 7 'x'⟩

end Qmark
